import Mathlib

/-!
# Verification of the channel-analyzer bot (`bot.py`)

Shallow embedding of the core logic of the repository's single source file
`bot.py`: the exchange-rate cache, the channel snapshot cache with milestone
notification, username extraction, niche detection, view-token parsing, fair
pricing, the daily entitlement gate, and gift-code redemption.

Python strings are modelled as `List Char`; machine floats are modelled as
`ℚ` (all quantities involved are exact decimals); database tables are
modelled as association lists keyed by the table's primary key; wall-clock
times are integers.  Stateful functions take the relevant state explicitly
and return the updated state.
-/

/-! ## Python string primitives -/

/-- ASCII whitespace, the characters matched by Python's `\s` / `str.strip()`
on the ASCII range. -/
def isSpace (c : Char) : Bool :=
  decide (c = ' ' ∨ c = '\t' ∨ c = '\n' ∨ c = '\r' ∨ c = '\x0b' ∨ c = '\x0c')

/-- A character of the class `[a-zA-Z0-9_]` from the regex in
`extract_username`. -/
def isWordChar (c : Char) : Bool :=
  decide ('a' ≤ c ∧ c ≤ 'z') || decide ('A' ≤ c ∧ c ≤ 'Z') ||
    decide ('0' ≤ c ∧ c ≤ '9') || decide (c = '_')

/-- An ASCII digit `[0-9]`. -/
def isDigit (c : Char) : Bool := decide ('0' ≤ c ∧ c ≤ '9')

/-- Python `str.strip()` (ASCII whitespace). -/
def pyStrip (l : List Char) : List Char :=
  (((l.dropWhile isSpace).reverse).dropWhile isSpace).reverse

/-- `startsWith l p`: the list `l` begins with the pattern `p`. -/
def startsWith : List Char → List Char → Bool
  | _, [] => true
  | [], _ :: _ => false
  | c :: cs, p :: ps => decide (c = p) && startsWith cs ps

/-- Python's `pat in s` substring test (for nonempty `pat`). -/
def containsSub (pat : List Char) : List Char → Bool
  | [] => startsWith [] pat
  | c :: rest => startsWith (c :: rest) pat || containsSub pat rest

/-- Python's `c in s` single-character membership test. -/
def containsChar (c : Char) : List Char → Bool
  | [] => false
  | d :: rest => decide (d = c) || containsChar c rest

/-- Fuelled worker for `splitOnSub`; `fuel` strictly exceeding the length of
the scanned list makes it total without well-founded recursion (so that it
reduces in the kernel).  The pattern is `c₀ :: s`. -/
def splitOnSubFuel (c₀ : Char) (s : List Char) : Nat → List Char → List Char → List (List Char)
  | 0, acc, l => [acc.reverse ++ l]
  | _ + 1, acc, [] => [acc.reverse]
  | fuel + 1, acc, c :: rest =>
    if startsWith (c :: rest) (c₀ :: s) then
      acc.reverse :: splitOnSubFuel c₀ s fuel [] (rest.drop s.length)
    else
      splitOnSubFuel c₀ s fuel (c :: acc) rest

/-- Python `str.split(pat)` for a nonempty separator `pat` (leftmost-first,
non-overlapping occurrences). -/
def splitOnSub (pat : List Char) (l : List Char) : List (List Char) :=
  match pat with
  | [] => [l]
  | p :: ps => splitOnSubFuel p ps (l.length + 1) [] l

/-- Python `s.split(sep)[0]` for a single-character separator `sep`. -/
def splitHead (sep : Char) (l : List Char) : List Char :=
  l.takeWhile (fun c => decide (c ≠ sep))

/-- Python `re.split(r'\s', s)[0]`: the prefix up to the first whitespace
character. -/
def splitWsHead (l : List Char) : List Char :=
  l.takeWhile (fun c => !isSpace c)

/-- Python `str.lower()` restricted to the alphabets occurring in the niche
keyword table: ASCII letters and the Russian Cyrillic letters. -/
def pyLower (c : Char) : Char :=
  if 'A' ≤ c ∧ c ≤ 'Z' then Char.ofNat (c.toNat + 32)
  else if 'А' ≤ c ∧ c ≤ 'Я' then Char.ofNat (c.toNat + 32)
  else if c = 'Ё' then 'ё'
  else c

/-- `str.lower()` applied characterwise. -/
def pyLowerList (l : List Char) : List Char := l.map pyLower

/-- The value of a digit string, as Python's integer parsing computes it. -/
def digitsToNat (l : List Char) : Nat :=
  l.foldl (fun a c => a * 10 + (c.toNat - '0'.toNat)) 0

/-- Magnitude part of `pyFloat`: a decimal literal `digits`, `digits.digits`,
`digits.` or `.digits`. -/
def pyFloatMag (l : List Char) : Option ℚ :=
  match splitOnSub ['.'] l with
  | [i] => if i ≠ [] ∧ i.all isDigit then some (digitsToNat i : ℚ) else none
  | [i, f] =>
    if (i ≠ [] ∨ f ≠ []) ∧ i.all isDigit ∧ f.all isDigit then
      some ((digitsToNat i : ℚ) + (digitsToNat f : ℚ) / (10 ^ f.length : ℚ))
    else none
  | _ => none

/-- Python `float(s)` on plain decimal literals with an optional sign — the
only shapes the scraper's tokens can take; anything else is a parse failure
(Python raises, the caller catches). -/
def pyFloat (l : List Char) : Option ℚ :=
  match l with
  | '-' :: rest => (pyFloatMag rest).map (fun q => -q)
  | '+' :: rest => pyFloatMag rest
  | _ => pyFloatMag l

/-- Python `int(x)` on a float: truncation toward zero. -/
def pyInt (q : ℚ) : ℤ := if 0 ≤ q then ⌊q⌋ else ⌈q⌉

/-! ## Association lists (database tables keyed by primary key) -/

/-- `SELECT v FROM t WHERE key = k` on a table with primary key `k`. -/
def lookupA {α β : Type} [DecidableEq α] : List (α × β) → α → Option β
  | [], _ => none
  | p :: rest, a => if p.1 = a then some p.2 else lookupA rest a

/-- `INSERT ... ON CONFLICT (key) DO UPDATE`: overwrite the row if the key is
present, append it otherwise. -/
def upsertA {α β : Type} [DecidableEq α] (l : List (α × β)) (k : α) (v : β) : List (α × β) :=
  if l.any (fun p => decide (p.1 = k)) then
    l.map (fun p => if p.1 = k then (k, v) else p)
  else l ++ [(k, v)]

/-! ## Exchange-rate provider (`get_usd_rate`) -/

/-- The module-level `_usd_rate` record: `{"rate": 90.0, "date": ""}`. -/
structure RateCache where
  rate : ℚ
  date : String
deriving DecidableEq

/-- The initial value of `_usd_rate`. -/
def initialRateCache : RateCache := ⟨90, ""⟩

/-- The first source that does not raise, in priority order; `none` models a
source whose fetch/extraction raised. -/
def firstSuccess : List (Option ℚ) → Option ℚ
  | [] => none
  | some r :: _ => some r
  | none :: rest => firstSuccess rest

/-- `get_usd_rate()`: if the cache's date stamp is today, return the cached
rate; otherwise try each source in order — on the first success overwrite
rate and date and return the fresh rate; if every source fails, return the
literal fallback `90.0` and leave the cache untouched.  `sources` holds each
configured source's outcome for this call. -/
def get_usd_rate (c : RateCache) (today : String) (sources : List (Option ℚ)) :
    ℚ × RateCache :=
  if c.date = today then (c.rate, c)
  else
    match firstSuccess sources with
    | some r => (r, ⟨r, today⟩)
    | none => (90, c)

/-! ## Channel cache (`save_channel_cache`) -/

/-- One row of the `channel_cache` table (minus the key column). -/
structure ChannelSnapshot where
  members : ℤ
  avg_views : ℚ
  er : ℚ
  niche : String
  fair_price : ℤ
  posts_per_day : ℚ
deriving DecidableEq

/-- `CACHE_NOTIFY_MILESTONES = [100, 250, 500, 1000]`. -/
def CACHE_NOTIFY_MILESTONES : List Nat := [100, 250, 500, 1000]

/-- `save_channel_cache`: upsert the snapshot keyed by username, then count
the rows; the milestone notification to the admin is attempted exactly when
the post-save row count is in `CACHE_NOTIFY_MILESTONES`.  Returns the updated
table and whether the notification fired. -/
def save_channel_cache (cache : List (String × ChannelSnapshot)) (username : String)
    (s : ChannelSnapshot) : List (String × ChannelSnapshot) × Bool :=
  let cache' := upsertA cache username s
  (cache', decide ((cache'.length) ∈ CACHE_NOTIFY_MILESTONES))

/-- A fixed snapshot value, used for concrete instances. -/
def someSnap : ChannelSnapshot := ⟨0, 0, 0, "default", 0, 0⟩

/-- A channel-cache table holding exactly 100 rows with distinct usernames
`"0", …, "99"`. -/
def bigCache : List (String × ChannelSnapshot) :=
  (List.range 100).map (fun i => (toString i, someSnap))

/-! ## Subscriptions, gift codes, entitlements -/

/-- One row of the `gift_codes` table (minus the key column). -/
structure GiftCode where
  days : ℤ
  used : Bool
  usedBy : Option ℤ
  usedAt : Option ℤ
deriving DecidableEq

/-- The persistent store: `subscriptions` maps a user id to its expiry
instant, `gift_codes` maps a code to its row.  Time is an integer count of
days. -/
structure Store where
  subs : List (ℤ × ℤ)
  gifts : List (String × GiftCode)
deriving DecidableEq

/-- `is_premium(user_id)`: the user has a subscription row with
`expires_at > NOW()`. -/
def is_premium (expiresAt : Option ℤ) (now : ℤ) : Bool :=
  match expiresAt with
  | some e => decide (now < e)
  | none => false

/-- `add_subscription(user_id, days)`: upsert the subscription row with
`expires_at = now + days`, overwriting any existing expiry. -/
def add_subscription (st : Store) (user : ℤ) (days : ℤ) (now : ℤ) : Store :=
  ⟨upsertA st.subs user (now + days), st.gifts⟩

/-- `get_expiry(user_id)`: the stored expiry, if any. -/
def get_expiry (st : Store) (user : ℤ) : Option ℤ :=
  lookupA st.subs user

/-- The subscription effect of the admin `/grant` command (30 days). -/
def grant_command_effect (st : Store) (target : ℤ) (now : ℤ) : Store :=
  add_subscription st target 30 now

/-- The subscription effect of a successful Stars payment (30 days). -/
def successful_payment_effect (st : Store) (user : ℤ) (now : ℤ) : Store :=
  add_subscription st user 30 now

/-- The outcome reported by `redeem_gift_code` (the Russian message strings,
abstracted to their three distinct shapes). -/
inductive RedeemOutcome
  | notFound
  | alreadyUsed
  | activated
deriving DecidableEq

/-- `redeem_gift_code(code, user_id)`: unknown code → failure, no mutation;
used code → failure, no mutation; otherwise mark the code used by this user
now and grant `days` of subscription via `add_subscription`. -/
def redeem_gift_code (st : Store) (code : String) (user : ℤ) (now : ℤ) :
    Bool × RedeemOutcome × Store :=
  match lookupA st.gifts code with
  | none => (false, .notFound, st)
  | some g =>
    if g.used then (false, .alreadyUsed, st)
    else
      let st1 : Store := ⟨st.subs, upsertA st.gifts code ⟨g.days, true, some user, some now⟩⟩
      (true, .activated, add_subscription st1 user g.days now)

/-- `FREE_CHECKS_PER_DAY = 3`. -/
def FREE_CHECKS_PER_DAY : Nat := 3

/-- `check_daily_limit(user_id)`: premium users are granted with no counter
mutation; otherwise read today's counter (0 if absent), deny when it has
reached the ceiling, else increment-or-insert and grant.  `counter` is the
`daily_checks` row for (user, today). -/
def check_daily_limit (expiresAt : Option ℤ) (now : ℤ) (counter : Option Nat) :
    Bool × Option Nat :=
  if is_premium expiresAt now then (true, counter)
  else if FREE_CHECKS_PER_DAY ≤ counter.getD 0 then (false, counter)
  else
    match counter with
    | none => (true, some 1)
    | some c => (true, some (c + 1))

/-- A sequence of `n` entitlement checks by one user on one calendar day,
threading the daily counter; returns the grant/deny outcomes in order. -/
def runChecks (expiresAt : Option ℤ) (now : ℤ) : Option Nat → Nat → List Bool
  | _, 0 => []
  | st, n + 1 =>
    (check_daily_limit expiresAt now st).1 ::
      runChecks expiresAt now (check_daily_limit expiresAt now st).2 n

/-! ## Username extraction (`extract_username`) -/

/-- The separator `'t.me/'`. -/
def tme : List Char := ['t', '.', 'm', 'e', '/']

/-- `extract_username(text)`: after stripping, a `t.me/` URL yields the first
path segment after the last `t.me/`, with any `/`-suffix and `?`-query
removed; an `@`-token yields its first whitespace-delimited word likewise
cleaned; a bare token is accepted as-is only when it is `[a-zA-Z0-9_]+` of
length at least 4; otherwise no handle. -/
def extract_username (raw : List Char) : Option (List Char) :=
  let text := pyStrip raw
  if containsSub tme text then
    let part := pyStrip (splitHead '?' (splitHead '/' ((splitOnSub tme text).getLastD [])))
    if part = [] then none else some part
  else if startsWith text ['@'] then
    let r := pyStrip (splitHead '?' (splitHead '/' (splitWsHead (text.drop 1))))
    if r = [] then none else some r
  else if text.all isWordChar ∧ text ≠ [] ∧ 4 ≤ text.length then some text
  else none

/-! ## Niche detection (`detect_niche`) -/

/-- `NICHE_KEYWORDS`, in the source's (insertion) order. -/
def NICHE_KEYWORDS : List (String × List String) :=
  [("arbitrage", ["арбитраж", "трафик", "traffic", "партнёрк", "партнерк", "cpa",
      "offerwalls", "оффер", "affiliate", "лид", "конверси", "click", "клик",
      "медиабай", "media buy", "баинг", "баер", "webmaster", "вебмастер", "монетизац"]),
   ("crypto", ["крипт", "bitcoin", "btc", "eth", "web3", "nft", "блокчейн", "defi",
      "токен", "binance", "биржа", "трейд", "альткоин"]),
   ("finance", ["финанс", "инвестиц", "акци", "фондов", "биржа", "доход", "заработ",
      "деньги", "бюджет", "ипотек", "вклад"]),
   ("business", ["бизнес", "предприним", "стартап", "маркетплейс", "wildberries",
      "ozon", "продажи", "b2b"]),
   ("it", ["it", "программир", "разработ", "python", "javascript", "devops",
      "software", "код", "приложени", "tech"]),
   ("education", ["образован", "обучен", "курс", "учёб", "школ", "университет",
      "урок", "знани", "навык"]),
   ("lifestyle", ["лайфстайл", "красот", "мода", "стиль", "beauty", "косметик",
      "здоровь", "фитнес", "питани"]),
   ("sport", ["спорт", "футбол", "хоккей", "баскетбол", "тренировк", "спортзал",
      "матч", "чемпионат"]),
   ("gaming", ["игр", "gaming", "геймер", "стрим", "twitch", "esports", "киберспорт"]),
   ("news", ["новост", "политик", "медиа", "сми", "репортаж", "события", "происшестви"]),
   ("entertainment", ["юмор", "мем", "развлечен", "приколы", "смешн", "entertainment", "шоу"])]

/-- A niche entry matches when any of its keywords is a substring of the
assembled lowercase text. -/
def nicheMatches (text : List Char) (entry : String × List String) : Bool :=
  entry.2.any (fun kw => containsSub kw.toList text)

/-- The keyword-table scan of `detect_niche`: first matching entry wins,
`"default"` when none matches. -/
def detectLoop (text : List Char) : List (String × List String) → String
  | [] => "default"
  | e :: rest => if nicheMatches text e then e.1 else detectLoop text rest

/-- The text `f"{description} {title} {username}".lower()`. -/
def assembled (description title username : String) : List Char :=
  pyLowerList ((description ++ " " ++ title ++ " " ++ username).toList)

/-- `detect_niche(description, title, username)`. -/
def detect_niche (description title username : String) : String :=
  detectLoop (assembled description title username) NICHE_KEYWORDS

/-! ## View-token parsing (`get_post_views`) and pricing -/

/-- The per-token parsing of the view-count loop in `get_post_views`: strip,
remove NBSP and spaces, then `K` → numeral × 1000, `M` → numeral × 1000000,
otherwise the plain numeral; a failed `float(...)` is swallowed. -/
def parse_view_token (raw : List Char) : Option ℚ :=
  let v := ((pyStrip raw).filter (fun c => decide (c ≠ '\xa0'))).filter
    (fun c => decide (c ≠ ' '))
  if containsChar 'K' v then
    (pyFloat (v.filter (fun c => decide (c ≠ 'K')))).map (fun q => q * 1000)
  else if containsChar 'M' v then
    (pyFloat (v.filter (fun c => decide (c ≠ 'M')))).map (fun q => q * 1000000)
  else pyFloat v

/-- The view list produced by `get_post_views` from the scraped raw tokens:
each token parsed, malformed ones skipped. -/
def parse_views (tokens : List (List Char)) : List ℚ :=
  tokens.filterMap parse_view_token

/-- `CPM_BY_NICHE`, in the source's order. -/
def CPM_BY_NICHE : List (String × Nat) :=
  [("arbitrage", 45000), ("crypto", 36000), ("finance", 13500), ("business", 7200),
   ("it", 5400), ("education", 2700), ("lifestyle", 1800), ("sport", 1350),
   ("gaming", 1350), ("news", 900), ("entertainment", 720), ("default", 1800)]

/-- `CPM_BY_NICHE.get(niche, CPM_BY_NICHE["default"])`. -/
def cpmFor (niche : String) : Nat :=
  match lookupA CPM_BY_NICHE niche with
  | some c => c
  | none => (lookupA CPM_BY_NICHE "default").getD 0

/-- `calculate_fair_price(avg_views, niche) = (int(avg_views*cpm/1000), cpm)`. -/
def calculate_fair_price (avg_views : ℚ) (niche : String) : ℤ × Nat :=
  let cpm := cpmFor niche
  (pyInt (avg_views * (cpm : ℚ) / 1000), cpm)

/-! ## Engagement rate -/

/-- The four tier labels returned by `get_er_status` (abstracting the exact
Russian strings). -/
inductive ErStatus
  | excellent
  | good
  | average
  | low
deriving DecidableEq

/-- `get_er_status(er)`. -/
def get_er_status (er : ℚ) : ErStatus :=
  if 20 ≤ er then .excellent
  else if 10 ≤ er then .good
  else if 5 ≤ er then .average
  else .low

/-- The engagement-rate computation in `analyze_channel`:
`avg_views / members * 100 if members > 0 else 0`. -/
def engagement_rate (avg_views : ℚ) (members : ℤ) : ℚ :=
  if 0 < members then avg_views / (members : ℚ) * 100 else 0

/-! ## Association-list lemmas -/

theorem lookupA_map_overwrite {α β : Type} [DecidableEq α] (k : α) (v : β) :
    ∀ l : List (α × β), l.any (fun p => decide (p.1 = k)) = true →
      lookupA (l.map (fun p => if p.1 = k then (k, v) else p)) k = some v := by
  intro l
  induction l with
  | nil => intro h; simp at h
  | cons a rest ih =>
    intro h
    by_cases ha : a.1 = k
    · simp [lookupA, ha]
    · have h' : rest.any (fun p => decide (p.1 = k)) = true := by
        simp [List.any_cons, ha] at h
        simpa using h
      simpa [lookupA, ha] using ih h'

theorem lookupA_map_ne {α β : Type} [DecidableEq α] (k k' : α) (v : β) (h : k' ≠ k) :
    ∀ l : List (α × β),
      lookupA (l.map (fun p => if p.1 = k then (k, v) else p)) k' = lookupA l k' := by
  intro l
  induction l with
  | nil => rfl
  | cons a rest ih =>
    by_cases ha : a.1 = k
    · have hne : a.1 ≠ k' := by rw [ha]; exact fun hk => h hk.symm
      simp [lookupA, ha, Ne.symm h, hne, ih]
    · by_cases ha' : a.1 = k'
      · simp [lookupA, ha, ha', h]
      · simp [lookupA, ha, ha', ih]

theorem lookupA_none_of_any_false {α β : Type} [DecidableEq α] (k : α) :
    ∀ l : List (α × β), l.any (fun p => decide (p.1 = k)) = false → lookupA l k = none := by
  intro l
  induction l with
  | nil => intro _; rfl
  | cons a rest ih =>
    intro h
    simp [List.any_cons] at h
    simpa [lookupA, h.1] using ih (by simpa using h.2)

theorem lookupA_append_self {α β : Type} [DecidableEq α] (k : α) (v : β) :
    ∀ l : List (α × β), lookupA l k = none → lookupA (l ++ [(k, v)]) k = some v := by
  intro l
  induction l with
  | nil => intro _; simp [lookupA]
  | cons a rest ih =>
    intro h
    by_cases ha : a.1 = k
    · simp [lookupA, ha] at h
    · simp [lookupA, ha] at h ⊢
      exact ih h

theorem lookupA_append_ne {α β : Type} [DecidableEq α] (k k' : α) (v : β) (h : k' ≠ k) :
    ∀ l : List (α × β), lookupA (l ++ [(k, v)]) k' = lookupA l k' := by
  intro l
  induction l with
  | nil => simp [lookupA, Ne.symm h]
  | cons a rest ih =>
    by_cases ha : a.1 = k'
    · simp [lookupA, ha]
    · simp [lookupA, ha, ih]

theorem lookupA_upsertA_self {α β : Type} [DecidableEq α] (l : List (α × β)) (k : α) (v : β) :
    lookupA (upsertA l k v) k = some v := by
  unfold upsertA
  by_cases hm : l.any (fun p => decide (p.1 = k)) = true
  · rw [if_pos hm]; exact lookupA_map_overwrite k v l hm
  · rw [if_neg hm]
    exact lookupA_append_self k v l
      (lookupA_none_of_any_false k l (Bool.eq_false_iff.mpr hm))

theorem lookupA_upsertA_ne {α β : Type} [DecidableEq α] (l : List (α × β)) (k k' : α) (v : β)
    (h : k' ≠ k) : lookupA (upsertA l k v) k' = lookupA l k' := by
  unfold upsertA
  by_cases hm : l.any (fun p => decide (p.1 = k)) = true
  · rw [if_pos hm]; exact lookupA_map_ne k k' v h l
  · rw [if_neg hm]; exact lookupA_append_ne k k' v h l

theorem length_upsertA_of_mem {α β : Type} [DecidableEq α] (l : List (α × β)) (k : α) (v : β)
    (h : l.any (fun p => decide (p.1 = k)) = true) :
    (upsertA l k v).length = l.length := by
  unfold upsertA
  rw [if_pos h, List.length_map]

/-! ## Claim C1: exchange-rate fallback -/

theorem firstSuccess_eq_none (sources : List (Option ℚ)) (h : ∀ s ∈ sources, s = none) :
    firstSuccess sources = none := by
  induction sources with
  | nil => rfl
  | cons a rest ih =>
    have ha : a = none := h a (by simp)
    subst ha
    exact ih (fun s hs => h s (by simp [hs]))

/-- Claim C1, counterexample: with a cached rate of 95 carrying yesterday's
date stamp, a call on a new day on which every source fails returns the
fallback 90, not the previously cached rate 95. -/
theorem get_usd_rate_counterexample :
    (get_usd_rate ⟨95, "2025-01-01"⟩ "2025-01-02" [none, none, none]).1 = 90 ∧
    (⟨95, "2025-01-01"⟩ : RateCache).rate = 95 ∧ (90 : ℚ) ≠ 95 := by
  refine ⟨by decide, rfl, by decide⟩

/-- Claim C1 (amended): on a day whose date stamp differs from the cache's
stamp, if every configured source fails, the call returns the fixed default
rate 90 — not necessarily the previously cached rate — and leaves the cache
record unchanged; it never raises (the embedding is total). -/
theorem get_usd_rate_all_fail (c : RateCache) (today : String) (sources : List (Option ℚ))
    (hd : c.date ≠ today) (hs : ∀ s ∈ sources, s = none) :
    get_usd_rate c today sources = (90, c) := by
  unfold get_usd_rate
  rw [if_neg hd, firstSuccess_eq_none sources hs]

/-- Claim C1, witness for `get_usd_rate_all_fail`. -/
theorem get_usd_rate_all_fail_witness :
    (⟨95, "2025-01-01"⟩ : RateCache).date ≠ "2025-01-02" ∧
    get_usd_rate ⟨95, "2025-01-01"⟩ "2025-01-02" [none, none, none] =
      (90, ⟨95, "2025-01-01"⟩) :=
  ⟨by decide, get_usd_rate_all_fail ⟨95, "2025-01-01"⟩ "2025-01-02" [none, none, none]
    (by decide) (by decide)⟩

/-! ## Claim C2: milestone notification -/

/-- Claim C2, counterexample: `bigCache` holds 100 channels (100 is a
milestone); saving a snapshot for the already-cached handle `"0"` leaves the
total at 100 — the total does not cross a milestone — yet the milestone
notification fires again. -/
theorem save_channel_cache_counterexample :
    bigCache.length = 100 ∧
    (save_channel_cache bigCache "0" someSnap).1.length = 100 ∧
    (save_channel_cache bigCache "0" someSnap).2 = true := by
  refine ⟨by decide, by decide, by decide⟩

/-- Claim C2 (amended): on a save that overwrites an existing handle the
total number of cached handles is unchanged, and the milestone notification
fires exactly when that (unchanged) total equals a milestone value — so a
save that leaves the total at a milestone fires the notification again. -/
theorem save_channel_cache_spec (cache : List (String × ChannelSnapshot)) (u : String)
    (s : ChannelSnapshot) (h : cache.any (fun p => decide (p.1 = u)) = true) :
    (save_channel_cache cache u s).1.length = cache.length ∧
    ((save_channel_cache cache u s).2 = true ↔ cache.length ∈ CACHE_NOTIFY_MILESTONES) := by
  have hlen : (upsertA cache u s).length = cache.length := length_upsertA_of_mem cache u s h
  constructor
  · simpa [save_channel_cache] using hlen
  · simp [save_channel_cache, hlen]

/-- Claim C2, witness for `save_channel_cache_spec`. -/
theorem save_channel_cache_spec_witness :
    ([("abcd", someSnap)].any (fun p => decide (p.1 = "abcd")) = true) ∧
    (save_channel_cache [("abcd", someSnap)] "abcd" someSnap).1.length = 1 ∧
    ((save_channel_cache [("abcd", someSnap)] "abcd" someSnap).2 = true ↔
      1 ∈ CACHE_NOTIFY_MILESTONES) :=
  ⟨by decide, (save_channel_cache_spec [("abcd", someSnap)] "abcd" someSnap (by decide)).1,
    (save_channel_cache_spec [("abcd", someSnap)] "abcd" someSnap (by decide)).2⟩

/-! ## Claim C6: fair price -/

/-- Claim C6: for every non-negative average-views value and every niche, the
fair price is `⌊avgViews * cpm(niche) / 1000⌋`, where `cpm` is the fixed
table lookup with the `default` entry (1800) as fallback for unlisted
niches. -/
theorem calculate_fair_price_spec :
    (∀ (v : ℚ) (niche : String), 0 ≤ v →
      (calculate_fair_price v niche).1 = ⌊v * (cpmFor niche : ℚ) / 1000⌋) ∧
    (∀ niche : String, lookupA CPM_BY_NICHE niche = none → cpmFor niche = 1800) ∧
    (∀ (niche : String) (c : Nat), lookupA CPM_BY_NICHE niche = some c → cpmFor niche = c) := by
  refine ⟨?_, ?_, ?_⟩
  · intro v niche hv
    unfold calculate_fair_price pyInt
    have hq : 0 ≤ v * (cpmFor niche : ℚ) / 1000 :=
      div_nonneg (mul_nonneg hv (Nat.cast_nonneg _)) (by norm_num)
    simp [hq]
  · intro niche h
    unfold cpmFor
    rw [h]
    rfl
  · intro niche c h
    unfold cpmFor
    rw [h]

/-- Claim C6, witness for `calculate_fair_price_spec`. -/
theorem calculate_fair_price_spec_witness :
    (0 : ℚ) ≤ 1000700 ∧
    (calculate_fair_price 1000700 "default").1 = ⌊(1000700 : ℚ) * (cpmFor "default" : ℚ) / 1000⌋ ∧
    lookupA CPM_BY_NICHE "unlisted" = none ∧ cpmFor "unlisted" = 1800 ∧
    lookupA CPM_BY_NICHE "crypto" = some 36000 ∧ cpmFor "crypto" = 36000 := by
  have h := calculate_fair_price_spec
  exact ⟨by norm_num, h.1 1000700 "default" (by norm_num), rfl,
    h.2.1 "unlisted" rfl, rfl, h.2.2 "crypto" 36000 rfl⟩

/-! ## Claim C10: subscription grants overwrite the expiry -/

/-- Claim C10: every grant path (`add_subscription`, reached from gift-code
redemption, Stars payment, and the admin `/grant` command) sets the user's
expiry to exactly `now + days`, overwriting any existing expiry — in
particular a grant of `d` days to a user whose expiry lies more than `d`
days in the future shortens that subscription — and leaves other users'
rows unchanged. -/
theorem add_subscription_spec :
    (∀ (st : Store) (u d now : ℤ),
      get_expiry (add_subscription st u d now) u = some (now + d)) ∧
    (∀ (st : Store) (u d now v : ℤ), v ≠ u →
      get_expiry (add_subscription st u d now) v = get_expiry st v) ∧
    (∀ (st : Store) (u d now e : ℤ), get_expiry st u = some e → now + d < e →
      get_expiry (add_subscription st u d now) u = some (now + d) ∧ now + d < e) ∧
    (∀ (st : Store) (v now : ℤ),
      get_expiry (grant_command_effect st v now) v = some (now + 30) ∧
      get_expiry (successful_payment_effect st v now) v = some (now + 30)) ∧
    (∀ (st : Store) (code : String) (g : GiftCode) (user now : ℤ),
      lookupA st.gifts code = some g → g.used = false →
      get_expiry (redeem_gift_code st code user now).2.2 user = some (now + g.days)) := by
  have hself : ∀ (st : Store) (u d now : ℤ),
      get_expiry (add_subscription st u d now) u = some (now + d) := by
    intro st u d now
    unfold get_expiry add_subscription
    exact lookupA_upsertA_self st.subs u (now + d)
  refine ⟨hself, ?_, ?_, ?_, ?_⟩
  · intro st u d now v hv
    unfold get_expiry add_subscription
    exact lookupA_upsertA_ne st.subs u v (now + d) hv
  · intro st u d now e _ hlt
    exact ⟨hself st u d now, hlt⟩
  · intro st v now
    exact ⟨hself st v 30 now, hself st v 30 now⟩
  · intro st code g user now hc hu
    unfold redeem_gift_code
    rw [hc]
    simp only [hu, Bool.false_eq_true, if_false]
    exact hself ⟨st.subs, _⟩ user g.days now

/-- Claim C10, witness for `add_subscription_spec`: user 1 has expiry 100;
granting 10 days at time 0 moves the expiry back to 10. -/
theorem add_subscription_spec_witness :
    get_expiry (add_subscription ⟨[(1, 100)], []⟩ 1 10 0) 1 = some 10 ∧
    get_expiry (⟨[(1, 100)], []⟩ : Store) 1 = some 100 ∧ (0 : ℤ) + 10 < 100 ∧
    get_expiry (add_subscription ⟨[(1, 100)], []⟩ 1 10 0) 2 = get_expiry ⟨[(1, 100)], []⟩ 2 ∧
    get_expiry (grant_command_effect ⟨[], []⟩ 7 5) 7 = some 35 := by
  have h := add_subscription_spec
  exact ⟨by simpa using (h.2.2.1 ⟨[(1, 100)], []⟩ 1 10 0 100 rfl (by decide)).1, rfl, by decide,
    h.2.1 ⟨[(1, 100)], []⟩ 1 10 0 2 (by decide), by simpa using (h.2.2.2.1 ⟨[], []⟩ 7 5).1⟩

/-! ## Claim C5: gift-code redemption -/

theorem get_expiry_add_subscription (st : Store) (u d now : ℤ) :
    get_expiry (add_subscription st u d now) u = some (now + d) := by
  unfold get_expiry add_subscription
  exact lookupA_upsertA_self st.subs u (now + d)

/-- Claim C5: redeeming a fresh gift code succeeds, grants the code's stated
days (expiry `now + days`), and marks the code used by this user; any later
redemption of the same code fails with the already-used outcome and leaves
the store unchanged; an unknown code fails with the not-found outcome and
leaves the store unchanged. -/
theorem redeem_gift_code_spec (st : Store) (code : String) (g : GiftCode) (user now : ℤ)
    (hc : lookupA st.gifts code = some g) (hu : g.used = false) :
    (redeem_gift_code st code user now).1 = true ∧
    (redeem_gift_code st code user now).2.1 = RedeemOutcome.activated ∧
    get_expiry (redeem_gift_code st code user now).2.2 user = some (now + g.days) ∧
    lookupA (redeem_gift_code st code user now).2.2.gifts code
      = some ⟨g.days, true, some user, some now⟩ ∧
    (∀ user' now' : ℤ,
      redeem_gift_code (redeem_gift_code st code user now).2.2 code user' now'
        = (false, RedeemOutcome.alreadyUsed, (redeem_gift_code st code user now).2.2)) ∧
    (∀ c' : String, lookupA st.gifts c' = none →
      redeem_gift_code st c' user now = (false, RedeemOutcome.notFound, st)) := by
  have hred : redeem_gift_code st code user now =
      (true, RedeemOutcome.activated,
        add_subscription ⟨st.subs, upsertA st.gifts code ⟨g.days, true, some user, some now⟩⟩
          user g.days now) := by
    unfold redeem_gift_code
    rw [hc]
    simp [hu]
  have hgifts : (redeem_gift_code st code user now).2.2.gifts
      = upsertA st.gifts code ⟨g.days, true, some user, some now⟩ := by
    rw [hred]; rfl
  have hlook : lookupA (redeem_gift_code st code user now).2.2.gifts code
      = some ⟨g.days, true, some user, some now⟩ := by
    rw [hgifts]
    exact lookupA_upsertA_self st.gifts code _
  refine ⟨by rw [hred], by rw [hred], ?_, hlook, ?_, ?_⟩
  · rw [hred]
    exact get_expiry_add_subscription _ user g.days now
  · intro user' now'
    generalize hst : (redeem_gift_code st code user now).2.2 = st2 at hlook ⊢
    unfold redeem_gift_code
    rw [hlook]
    rfl
  · intro c' hc'
    unfold redeem_gift_code
    rw [hc']

/-- Claim C5, witness for `redeem_gift_code_spec`: a store holding one fresh
30-day code. -/
theorem redeem_gift_code_spec_witness :
    lookupA (⟨[], [("GIFT-AAAA1111", ⟨30, false, none, none⟩)]⟩ : Store).gifts
      "GIFT-AAAA1111" = some ⟨30, false, none, none⟩ ∧
    (redeem_gift_code ⟨[], [("GIFT-AAAA1111", ⟨30, false, none, none⟩)]⟩
      "GIFT-AAAA1111" 5 0).1 = true ∧
    get_expiry (redeem_gift_code ⟨[], [("GIFT-AAAA1111", ⟨30, false, none, none⟩)]⟩
      "GIFT-AAAA1111" 5 0).2.2 5 = some 30 := by
  have h := redeem_gift_code_spec ⟨[], [("GIFT-AAAA1111", ⟨30, false, none, none⟩)]⟩
    "GIFT-AAAA1111" ⟨30, false, none, none⟩ 5 0 (by decide) rfl
  exact ⟨by decide, h.1, by simpa using h.2.2.1⟩

/-! ## Claim C7: engagement rate and tier labels -/

/-- Claim C7: the engagement rate is `avgViews / members * 100` for a
positive member count and `0` for a zero member count, and the tier label is
chosen by inclusive thresholds exactly at 20 (excellent), 10 (good) and 5
(average), with everything below 5 labelled low. -/
theorem engagement_rate_spec :
    (∀ (v : ℚ) (m : ℤ), 0 < m → engagement_rate v m = v / (m : ℚ) * 100) ∧
    (∀ v : ℚ, engagement_rate v 0 = 0) ∧
    (∀ er : ℚ,
      (get_er_status er = ErStatus.excellent ↔ 20 ≤ er) ∧
      (get_er_status er = ErStatus.good ↔ 10 ≤ er ∧ er < 20) ∧
      (get_er_status er = ErStatus.average ↔ 5 ≤ er ∧ er < 10) ∧
      (get_er_status er = ErStatus.low ↔ er < 5)) := by
  refine ⟨?_, ?_, ?_⟩
  · intro v m hm
    unfold engagement_rate
    rw [if_pos hm]
  · intro v
    simp [engagement_rate]
  · intro er
    unfold get_er_status
    split_ifs with h1 h2 h3
    · exact ⟨⟨fun _ => h1, fun _ => rfl⟩,
        ⟨(fun hx => nomatch hx), fun hx => (by linarith [hx.2] : False).elim⟩,
        ⟨(fun hx => nomatch hx), fun hx => (by linarith [hx.2] : False).elim⟩,
        ⟨(fun hx => nomatch hx), fun hx => (by linarith : False).elim⟩⟩
    · exact ⟨⟨(fun hx => nomatch hx), fun hx => absurd hx h1⟩,
        ⟨fun _ => ⟨h2, not_le.mp h1⟩, fun _ => rfl⟩,
        ⟨(fun hx => nomatch hx), fun hx => (by linarith [hx.2] : False).elim⟩,
        ⟨(fun hx => nomatch hx), fun hx => (by linarith : False).elim⟩⟩
    · exact ⟨⟨(fun hx => nomatch hx), fun hx => absurd hx h1⟩,
        ⟨(fun hx => nomatch hx), fun hx => absurd hx.1 h2⟩,
        ⟨fun _ => ⟨h3, not_le.mp h2⟩, fun _ => rfl⟩,
        ⟨(fun hx => nomatch hx), fun hx => (by linarith : False).elim⟩⟩
    · exact ⟨⟨(fun hx => nomatch hx), fun hx => absurd hx h1⟩,
        ⟨(fun hx => nomatch hx), fun hx => absurd hx.1 h2⟩,
        ⟨(fun hx => nomatch hx), fun hx => absurd hx.1 h3⟩,
        ⟨fun _ => not_le.mp h3, fun _ => rfl⟩⟩

/-- Claim C7, witness for `engagement_rate_spec`. -/
theorem engagement_rate_spec_witness :
    (0 : ℤ) < 200 ∧
    engagement_rate 50 200 = 50 / ((200 : ℤ) : ℚ) * 100 ∧
    engagement_rate 50 0 = 0 ∧
    (get_er_status 20 = ErStatus.excellent ↔ (20 : ℚ) ≤ 20) := by
  have h := engagement_rate_spec
  exact ⟨by decide, h.1 50 200 (by decide), h.2.1 50, (h.2.2 20).1⟩

/-! ## Claim C4: the daily entitlement gate -/

theorem runChecks_some (sub : Option ℤ) (now : ℤ) (hp : is_premium sub now = false) :
    ∀ (n c : Nat), runChecks sub now (some c) n =
      List.replicate (min n (FREE_CHECKS_PER_DAY - c)) true ++
        List.replicate (n - (FREE_CHECKS_PER_DAY - c)) false := by
  have hF : FREE_CHECKS_PER_DAY = 3 := rfl
  intro n
  induction n with
  | zero => intro c; simp [runChecks]
  | succ n ih =>
    intro c
    by_cases h3 : FREE_CHECKS_PER_DAY ≤ c
    · have hd : check_daily_limit sub now (some c) = (false, some c) := by
        simp [check_daily_limit, hp, h3]
      have h0 : FREE_CHECKS_PER_DAY - c = 0 := by omega
      rw [show runChecks sub now (some c) (n + 1)
          = (check_daily_limit sub now (some c)).1 ::
            runChecks sub now (check_daily_limit sub now (some c)).2 n from rfl, hd]
      simp only [ih c, h0]
      simp [List.replicate_succ]
    · have hd : check_daily_limit sub now (some c) = (true, some (c + 1)) := by
        simp [check_daily_limit, hp, h3]
      rw [show runChecks sub now (some c) (n + 1)
          = (check_daily_limit sub now (some c)).1 ::
            runChecks sub now (check_daily_limit sub now (some c)).2 n from rfl, hd]
      simp only [ih (c + 1)]
      have e1 : min (n + 1) (FREE_CHECKS_PER_DAY - c)
          = min n (FREE_CHECKS_PER_DAY - (c + 1)) + 1 := by rw [hF] at h3 ⊢; omega
      have e2 : (n + 1) - (FREE_CHECKS_PER_DAY - c)
          = n - (FREE_CHECKS_PER_DAY - (c + 1)) := by rw [hF] at h3 ⊢; omega
      rw [e1, e2, List.replicate_succ]
      rfl

/-- Claim C4: a user without an active subscription is granted on exactly the
first `FREE_CHECKS_PER_DAY` (= 3) checks of a calendar day and denied on
every later check that day; a user whose expiry is in the future is granted
on every check, with the daily counter left untouched. -/
theorem check_daily_limit_spec :
    (∀ (sub : Option ℤ) (now : ℤ) (n : Nat), is_premium sub now = false →
      runChecks sub now none n =
        List.replicate (min n FREE_CHECKS_PER_DAY) true ++
          List.replicate (n - FREE_CHECKS_PER_DAY) false) ∧
    (∀ (e now : ℤ) (counter : Option Nat), now < e →
      check_daily_limit (some e) now counter = (true, counter)) := by
  have hF : FREE_CHECKS_PER_DAY = 3 := rfl
  constructor
  · intro sub now n hp
    cases n with
    | zero => simp [runChecks]
    | succ n =>
      have hd : check_daily_limit sub now none = (true, some 1) := by
        simp [check_daily_limit, hp, FREE_CHECKS_PER_DAY]
      rw [show runChecks sub now none (n + 1)
          = (check_daily_limit sub now none).1 ::
            runChecks sub now (check_daily_limit sub now none).2 n from rfl, hd]
      simp only [runChecks_some sub now hp n 1]
      have e1 : min (n + 1) FREE_CHECKS_PER_DAY
          = min n (FREE_CHECKS_PER_DAY - 1) + 1 := by rw [hF]; omega
      have e2 : (n + 1) - FREE_CHECKS_PER_DAY = n - (FREE_CHECKS_PER_DAY - 1) := by
        rw [hF]; omega
      rw [e1, e2, List.replicate_succ]
      rfl
  · intro e now counter he
    simp [check_daily_limit, is_premium, he]

/-- Claim C4, witness for `check_daily_limit_spec`: five checks by a
non-premium user grant three times then deny twice; a premium check leaves a
full counter untouched and grants. -/
theorem check_daily_limit_spec_witness :
    is_premium none 0 = false ∧
    runChecks none 0 none 5 =
      List.replicate (min 5 FREE_CHECKS_PER_DAY) true ++
        List.replicate (5 - FREE_CHECKS_PER_DAY) false ∧
    runChecks none 0 none 5 = [true, true, true, false, false] ∧
    (0 : ℤ) < 10 ∧
    check_daily_limit (some 10) 0 (some 3) = (true, some 3) := by
  have h := check_daily_limit_spec
  exact ⟨rfl, h.1 none 0 5 rfl, by decide, by decide, h.2 10 0 (some 3) (by decide)⟩

/-! ## Claim C9: niche classification order -/

theorem detectLoop_first_match (text : List Char) (e : String × List String) :
    ∀ (pre rest : List (String × List String)),
      (∀ p ∈ pre, nicheMatches text p = false) → nicheMatches text e = true →
      detectLoop text (pre ++ e :: rest) = e.1 := by
  intro pre
  induction pre with
  | nil =>
    intro rest _ he
    simp [detectLoop, he]
  | cons p pre ih =>
    intro rest hpre he
    have hp : nicheMatches text p = false := hpre p (by simp)
    simp only [List.cons_append, detectLoop, hp, Bool.false_eq_true, if_false]
    exact ih rest (fun q hq => hpre q (by simp [hq])) he

theorem detectLoop_no_match (text : List Char) :
    ∀ l : List (String × List String),
      (∀ p ∈ l, nicheMatches text p = false) → detectLoop text l = "default" := by
  intro l
  induction l with
  | nil => intro _; rfl
  | cons p rest ih =>
    intro h
    have hp : nicheMatches text p = false := h p (by simp)
    simp only [detectLoop, hp, Bool.false_eq_true, if_false]
    exact ih (fun q hq => h q (by simp [hq]))

/-- Claim C9: `detect_niche` returns the first category in the fixed table
order for which some keyword is a substring of the assembled lowercased text
(so when two categories match, the earlier one wins), and returns `"default"`
when no category matches. -/
theorem detect_niche_spec (d t u : String) :
    (∀ (pre : List (String × List String)) (e : String × List String)
        (rest : List (String × List String)),
      NICHE_KEYWORDS = pre ++ e :: rest →
      (∀ p ∈ pre, nicheMatches (assembled d t u) p = false) →
      nicheMatches (assembled d t u) e = true →
      detect_niche d t u = e.1) ∧
    ((∀ p ∈ NICHE_KEYWORDS, nicheMatches (assembled d t u) p = false) →
      detect_niche d t u = "default") := by
  constructor
  · intro pre e rest htab hpre he
    unfold detect_niche
    rw [htab]
    exact detectLoop_first_match (assembled d t u) e pre rest hpre he
  · intro h
    unfold detect_niche
    exact detectLoop_no_match (assembled d t u) NICHE_KEYWORDS h

/-- Claim C9, witness for `detect_niche_spec`: the text `биржа` matches a
keyword of `crypto` (position 1) and also of `finance` (position 2); the
earlier category `crypto` wins.  A text matching nothing yields `default`. -/
theorem detect_niche_spec_witness :
    detect_niche "биржа" "" "" = (NICHE_KEYWORDS.getD 1 ("", [])).1 ∧
    (NICHE_KEYWORDS.getD 1 ("", [])).1 = "crypto" ∧
    nicheMatches (assembled "биржа" "" "") (NICHE_KEYWORDS.getD 2 ("", [])) = true ∧
    (NICHE_KEYWORDS.getD 2 ("", [])).1 = "finance" ∧
    detect_niche "xyzzy" "" "" = "default" := by
  refine ⟨?_, rfl, by decide, rfl, ?_⟩
  · exact (detect_niche_spec "биржа" "" "").1 (NICHE_KEYWORDS.take 1)
      (NICHE_KEYWORDS.getD 1 ("", [])) (NICHE_KEYWORDS.drop 2) rfl (by decide) (by decide)
  · exact (detect_niche_spec "xyzzy" "" "").2 (by decide)

/-! ## Claim C8: view-token parsing and the pricing scenario -/

theorem dropWhile_isSpace_eq_self (l : List Char) (h : ∀ c ∈ l, isSpace c = false) :
    l.dropWhile isSpace = l := by
  cases l with
  | nil => rfl
  | cons c rest => simp [List.dropWhile_cons, h c (by simp)]

theorem pyStrip_eq_self (l : List Char) (h : ∀ c ∈ l, isSpace c = false) :
    pyStrip l = l := by
  unfold pyStrip
  rw [dropWhile_isSpace_eq_self l h,
    dropWhile_isSpace_eq_self l.reverse (fun c hc => h c (List.mem_reverse.mp hc)),
    List.reverse_reverse]

theorem containsChar_eq_false (k : Char) :
    ∀ l : List Char, (∀ c ∈ l, c ≠ k) → containsChar k l = false := by
  intro l
  induction l with
  | nil => intro _; rfl
  | cons d rest ih =>
    intro h
    simp [containsChar, h d (by simp), ih (fun c hc => h c (by simp [hc]))]

theorem containsChar_append_self (k : Char) (l : List Char) :
    containsChar k (l ++ [k]) = true := by
  induction l with
  | nil => simp [containsChar]
  | cons d rest ih => simp [containsChar, ih]

theorem parse_view_token_clean (t : List Char)
    (h : ∀ c ∈ t, isSpace c = false ∧ c ≠ 'K' ∧ c ≠ 'M' ∧ c ≠ '\xa0') :
    parse_view_token t = pyFloat t ∧
    parse_view_token (t ++ ['K']) = (pyFloat t).map (fun q => q * 1000) ∧
    parse_view_token (t ++ ['M']) = (pyFloat t).map (fun q => q * 1000000) := by
  have hspace : ∀ c ∈ t, isSpace c = false := fun c hc => (h c hc).1
  have hsp : ∀ c ∈ t, c ≠ ' ' :=
    fun c hc he => absurd ((h c hc).1) (by rw [he]; decide)
  have hf1 : t.filter (fun c => decide (c ≠ '\xa0')) = t :=
    List.filter_eq_self.mpr (fun a ha => decide_eq_true ((h a ha).2.2.2))
  have hf2 : t.filter (fun c => decide (c ≠ ' ')) = t :=
    List.filter_eq_self.mpr (fun a ha => decide_eq_true (hsp a ha))
  refine ⟨?_, ?_, ?_⟩
  · simp only [parse_view_token]
    rw [pyStrip_eq_self t hspace, hf1, hf2,
      containsChar_eq_false 'K' t (fun c hc => (h c hc).2.1),
      containsChar_eq_false 'M' t (fun c hc => (h c hc).2.2.1)]
    simp
  · have hspaceK : ∀ c ∈ t ++ ['K'], isSpace c = false := by
      intro c hc
      rcases List.mem_append.mp hc with hc | hc
      · exact hspace c hc
      · simp at hc; rw [hc]; decide
    have hf1K : (t ++ ['K']).filter (fun c => decide (c ≠ '\xa0')) = t ++ ['K'] := by
      refine List.filter_eq_self.mpr ?_
      intro a ha
      rcases List.mem_append.mp ha with ha | ha
      · exact decide_eq_true ((h a ha).2.2.2)
      · simp at ha; rw [ha]; decide
    have hf2K : (t ++ ['K']).filter (fun c => decide (c ≠ ' ')) = t ++ ['K'] := by
      refine List.filter_eq_self.mpr ?_
      intro a ha
      rcases List.mem_append.mp ha with ha | ha
      · exact decide_eq_true (hsp a ha)
      · simp at ha; rw [ha]; decide
    have hfK : (t ++ ['K']).filter (fun c => decide (c ≠ 'K')) = t := by
      rw [List.filter_append,
        List.filter_eq_self.mpr (fun a ha => decide_eq_true ((h a ha).2.1))]
      simp
    simp only [parse_view_token]
    rw [pyStrip_eq_self _ hspaceK, hf1K, hf2K, containsChar_append_self 'K' t, hfK]
    simp
  · have hspaceM : ∀ c ∈ t ++ ['M'], isSpace c = false := by
      intro c hc
      rcases List.mem_append.mp hc with hc | hc
      · exact hspace c hc
      · simp at hc; rw [hc]; decide
    have hf1M : (t ++ ['M']).filter (fun c => decide (c ≠ '\xa0')) = t ++ ['M'] := by
      refine List.filter_eq_self.mpr ?_
      intro a ha
      rcases List.mem_append.mp ha with ha | ha
      · exact decide_eq_true ((h a ha).2.2.2)
      · simp at ha; rw [ha]; decide
    have hf2M : (t ++ ['M']).filter (fun c => decide (c ≠ ' ')) = t ++ ['M'] := by
      refine List.filter_eq_self.mpr ?_
      intro a ha
      rcases List.mem_append.mp ha with ha | ha
      · exact decide_eq_true (hsp a ha)
      · simp at ha; rw [ha]; decide
    have hKM : containsChar 'K' (t ++ ['M']) = false := by
      refine containsChar_eq_false 'K' _ ?_
      intro c hc
      rcases List.mem_append.mp hc with hc | hc
      · exact (h c hc).2.1
      · simp at hc; rw [hc]; decide
    have hfM : (t ++ ['M']).filter (fun c => decide (c ≠ 'M')) = t := by
      rw [List.filter_append,
        List.filter_eq_self.mpr (fun a ha => decide_eq_true ((h a ha).2.2.1))]
      simp
    simp only [parse_view_token]
    rw [pyStrip_eq_self _ hspaceM, hf1M, hf2M, hKM, containsChar_append_self 'M' t, hfM]
    simp

/-- Claim C8: each scraped view token is parsed as its numeral times 1 (no
suffix), 1000 (`K`) or 1000000 (`M`); malformed numerals are skipped rather
than failing the whole parse; and the spec's scenario holds: the tokens
`["1.2K", "900", "3M"]` parse to `[1200, 900, 3000000]`, whose average
1000700 at the default CPM 1800 gives fair price
`⌊1000700 * 1800 / 1000⌋ = 1801260`. -/
theorem get_post_views_spec :
    parse_views ["1.2K".toList, "900".toList, "3M".toList] = [1200, 900, 3000000] ∧
    (1200 + 900 + 3000000 : ℚ) / 3 = 1000700 ∧
    cpmFor "default" = 1800 ∧
    (calculate_fair_price ((1200 + 900 + 3000000 : ℚ) / 3) "default").1 = 1801260 ∧
    (∀ (pre post : List (List Char)) (t : List Char), parse_view_token t = none →
      parse_views (pre ++ t :: post) = parse_views (pre ++ post)) ∧
    (∀ (t : List Char) (q : ℚ),
      (∀ c ∈ t, isSpace c = false ∧ c ≠ 'K' ∧ c ≠ 'M' ∧ c ≠ '\xa0') →
      pyFloat t = some q →
      parse_view_token t = some q ∧
      parse_view_token (t ++ ['K']) = some (q * 1000) ∧
      parse_view_token (t ++ ['M']) = some (q * 1000000)) := by
  refine ⟨?_, by norm_num, rfl, ?_, ?_, ?_⟩
  · have h1 : parse_view_token "1.2K".toList
        = some ((((1 : ℕ) : ℚ) + ((2 : ℕ) : ℚ) / 10 ^ (1 : ℕ)) * 1000) := rfl
    have h2 : parse_view_token "900".toList = some (((900 : ℕ) : ℚ)) := rfl
    have h3 : parse_view_token "3M".toList = some (((3 : ℕ) : ℚ) * 1000000) := rfl
    simp only [parse_views, List.filterMap_cons, h1, h2, h3, List.filterMap_nil]
    norm_num
  · have hc : cpmFor "default" = 1800 := rfl
    simp only [calculate_fair_price, hc, pyInt]
    norm_num
  · intro pre post t h
    simp [parse_views, List.filterMap_append, List.filterMap_cons, h]
  · intro t q hclean hq
    have h := parse_view_token_clean t hclean
    exact ⟨by rw [h.1, hq], by rw [h.2.1, hq]; rfl, by rw [h.2.2, hq]; rfl⟩

/-- Claim C8, witness for `get_post_views_spec`: the malformed token `abc` is
skipped, and the clean token `900` parses to 900. -/
theorem get_post_views_spec_witness :
    parse_view_token "abc".toList = none ∧
    parse_views (["900".toList] ++ "abc".toList :: []) = parse_views (["900".toList] ++ []) ∧
    pyFloat "900".toList = some 900 ∧
    parse_view_token "900".toList = some 900 := by
  have h := get_post_views_spec
  have hp : pyFloat "900".toList = some 900 := by decide
  exact ⟨by decide, h.2.2.2.2.1 ["900".toList] [] "abc".toList (by decide), hp,
    (h.2.2.2.2.2 "900".toList 900 (by decide) hp).1⟩

/-! ## Claim C3: username extraction -/

theorem word_not_space (c : Char) (h : isWordChar c = true) : isSpace c = false := by
  cases hs : isSpace c with
  | false => rfl
  | true =>
    exfalso
    have hd : c = ' ' ∨ c = '\t' ∨ c = '\n' ∨ c = '\r' ∨ c = '\x0b' ∨ c = '\x0c' := by
      simpa [isSpace] using hs
    rcases hd with h1 | h1 | h1 | h1 | h1 | h1 <;> subst h1 <;> exact absurd h (by decide)

theorem word_char_ne (c : Char) (h : isWordChar c = true) :
    c ≠ '/' ∧ c ≠ '?' ∧ c ≠ '@' ∧ c ≠ '.' := by
  refine ⟨?_, ?_, ?_, ?_⟩ <;> rintro rfl <;> exact absurd h (by decide)

theorem startsWith_append_self (p t : List Char) : startsWith (p ++ t) p = true := by
  induction p with
  | nil => simp [startsWith]
  | cons c cs ih => simp [startsWith, ih]

theorem startsWith_tme_of_word (l : List Char) (h : l.all isWordChar = true) :
    startsWith l tme = false := by
  cases l with
  | nil => rfl
  | cons c l' =>
    cases l' with
    | nil => simp [startsWith, tme]
    | cons d rest =>
      rw [List.all_cons, Bool.and_eq_true, List.all_cons, Bool.and_eq_true] at h
      have hd : d ≠ '.' := (word_char_ne d h.2.1).2.2.2
      simp [startsWith, tme, hd]

theorem containsSub_tme_of_word (l : List Char) (h : l.all isWordChar = true) :
    containsSub tme l = false := by
  induction l with
  | nil => rfl
  | cons c rest ih =>
    have h' : rest.all isWordChar = true := by
      rw [List.all_cons, Bool.and_eq_true] at h
      exact h.2
    simp [containsSub, startsWith_tme_of_word (c :: rest) h, ih h']

theorem containsSub_tme_cons (c : Char) (x : List Char) (hc : c ≠ 't')
    (h : containsSub tme x = false) : containsSub tme (c :: x) = false := by
  have hsw : startsWith (c :: x) tme = false := by simp [startsWith, tme, hc]
  simp [containsSub, hsw, h]

theorem splitOnSubFuel_no_match (c₀ : Char) (s : List Char) :
    ∀ (fuel : Nat) (l acc : List Char), l.length < fuel →
      containsSub (c₀ :: s) l = false →
      splitOnSubFuel c₀ s fuel acc l = [acc.reverse ++ l] := by
  intro fuel
  induction fuel with
  | zero => intro l acc hlen _; exact absurd hlen (by omega)
  | succ fuel ih =>
    intro l acc hlen hc
    cases l with
    | nil => simp [splitOnSubFuel]
    | cons c rest =>
      simp only [containsSub, Bool.or_eq_false_iff] at hc
      simp only [splitOnSubFuel]
      rw [if_neg (by simp [hc.1])]
      rw [ih rest (c :: acc) (by simp at hlen; omega) hc.2]
      simp

theorem splitOnSubFuel_tme_front (x : List Char) (h : containsSub tme x = false)
    (fuel : Nat) (hf : x.length < fuel) :
    splitOnSubFuel 't' ['.', 'm', 'e', '/'] (fuel + 1) [] (tme ++ x) = [[], x] := by
  rw [show tme ++ x = 't' :: ('.' :: 'm' :: 'e' :: '/' :: x) from rfl]
  simp only [splitOnSubFuel]
  have hsw : startsWith ('t' :: '.' :: 'm' :: 'e' :: '/' :: x) ('t' :: ['.', 'm', 'e', '/'])
      = true := startsWith_append_self tme x
  rw [if_pos hsw]
  rw [show List.drop (['.', 'm', 'e', '/'].length) ('.' :: 'm' :: 'e' :: '/' :: x) = x from rfl]
  rw [splitOnSubFuel_no_match 't' ['.', 'm', 'e', '/'] fuel x [] (by omega) h]
  rfl

theorem splitOnSub_tme_front (x : List Char) (h : containsSub tme x = false) :
    splitOnSub tme (tme ++ x) = [[], x] := by
  show splitOnSubFuel 't' ['.', 'm', 'e', '/'] ((tme ++ x).length + 1) [] (tme ++ x) = [[], x]
  have e : (tme ++ x).length + 1 = (x.length + 5) + 1 := by simp [tme]
  rw [e]
  exact splitOnSubFuel_tme_front x h (x.length + 5) (by omega)

theorem splitHead_eq_self (sep : Char) (l : List Char) (h : ∀ c ∈ l, c ≠ sep) :
    splitHead sep l = l :=
  List.takeWhile_eq_self_iff.mpr (fun c hc => decide_eq_true (h c hc))

theorem splitWsHead_eq_self (l : List Char) (h : ∀ c ∈ l, isSpace c = false) :
    splitWsHead l = l :=
  List.takeWhile_eq_self_iff.mpr (fun c hc => by simp [h c hc])

/-- Claim C3, counterexample: the input `@ab` is shorter than 4 characters
(and its handle `ab` is too), yet the extractor returns the handle `ab`
rather than no handle — the length/charset restriction applies only to bare
tokens. -/
theorem extract_username_counterexample :
    extract_username "@ab".toList = some ['a', 'b'] ∧ ("@ab".toList).length < 4 := by
  exact ⟨by decide, by decide⟩

/-- Claim C3 (amended): for every nonempty handle `x` over `[A-Za-z0-9_]`,
the inputs `t.me/x` and `@x` yield `x` with no length check, and a bare
token `x` yields `x` exactly when its length is at least 4 (a shorter bare
token yields no handle); a bare token (no `t.me/`, not `@`-prefixed, no
whitespace) containing a character outside `[A-Za-z0-9_]` yields no
handle. -/
theorem extract_username_spec (x : List Char) (hne : x ≠ []) (hw : x.all isWordChar = true) :
    extract_username (tme ++ x) = some x ∧
    extract_username ('@' :: x) = some x ∧
    (4 ≤ x.length → extract_username x = some x) ∧
    (x.length < 4 → extract_username x = none) ∧
    (∀ y : List Char, (∀ c ∈ y, isSpace c = false) →
      containsSub tme y = false → startsWith y ['@'] = false →
      y.all isWordChar = false → extract_username y = none) := by
  have hwAll : ∀ c ∈ x, isWordChar c = true := List.all_eq_true.mp hw
  have hxnospace : ∀ c ∈ x, isSpace c = false := fun c hc => word_not_space c (hwAll c hc)
  have hxContains : containsSub tme x = false := containsSub_tme_of_word x hw
  have hxSlash : ∀ c ∈ x, c ≠ '/' := fun c hc => (word_char_ne c (hwAll c hc)).1
  have hxQ : ∀ c ∈ x, c ≠ '?' := fun c hc => (word_char_ne c (hwAll c hc)).2.1
  have hclean : pyStrip (splitHead '?' (splitHead '/' x)) = x := by
    rw [splitHead_eq_self '/' x hxSlash, splitHead_eq_self '?' x hxQ,
      pyStrip_eq_self x hxnospace]
  refine ⟨?_, ?_, ?_, ?_, ?_⟩
  · have hstrip : pyStrip (tme ++ x) = tme ++ x := by
      apply pyStrip_eq_self
      intro c hc
      rcases List.mem_append.mp hc with hc | hc
      · have : c = 't' ∨ c = '.' ∨ c = 'm' ∨ c = 'e' ∨ c = '/' := by simpa [tme] using hc
        rcases this with h1 | h1 | h1 | h1 | h1 <;> subst h1 <;> rfl
      · exact hxnospace c hc
    have hsw : startsWith ('t' :: '.' :: 'm' :: 'e' :: '/' :: x) tme = true :=
      startsWith_append_self tme x
    have hcontains : containsSub tme (tme ++ x) = true := by
      rw [show tme ++ x = 't' :: ('.' :: 'm' :: 'e' :: '/' :: x) from rfl]
      simp [containsSub, hsw]
    simp only [extract_username, hstrip, hcontains, if_true]
    rw [splitOnSub_tme_front x hxContains]
    rw [show List.getLastD [[], x] [] = x by simp [List.getLastD]]
    rw [hclean]
    simp [hne]
  · have hstrip : pyStrip ('@' :: x) = '@' :: x := by
      apply pyStrip_eq_self
      intro c hc
      rcases List.mem_cons.mp hc with hc | hc
      · subst hc; rfl
      · exact hxnospace c hc
    have hcontains : containsSub tme ('@' :: x) = false :=
      containsSub_tme_cons '@' x (by decide) hxContains
    have hat : startsWith ('@' :: x) ['@'] = true := by simp [startsWith]
    simp only [extract_username, hstrip, hcontains, Bool.false_eq_true, if_false, hat, if_true]
    rw [show ('@' :: x).drop 1 = x from rfl, splitWsHead_eq_self x hxnospace, hclean]
    simp [hne]
  · intro h4
    have hstrip : pyStrip x = x := pyStrip_eq_self x hxnospace
    have hat : startsWith x ['@'] = false := by
      cases x with
      | nil => exact absurd rfl hne
      | cons c rest =>
        have : c ≠ '@' := (word_char_ne c (hwAll c (by simp))).2.2.1
        simp [startsWith, this]
    simp only [extract_username, hstrip, hxContains, Bool.false_eq_true, if_false, hat]
    rw [if_pos ⟨hw, hne, h4⟩]
  · intro h4
    have hstrip : pyStrip x = x := pyStrip_eq_self x hxnospace
    have hat : startsWith x ['@'] = false := by
      cases x with
      | nil => exact absurd rfl hne
      | cons c rest =>
        have : c ≠ '@' := (word_char_ne c (hwAll c (by simp))).2.2.1
        simp [startsWith, this]
    simp only [extract_username, hstrip, hxContains, Bool.false_eq_true, if_false, hat]
    rw [if_neg (fun hcond => absurd hcond.2.2 (by omega))]
  · intro y hynospace hyc hyat hyw
    have hstrip : pyStrip y = y := pyStrip_eq_self y hynospace
    simp only [extract_username, hstrip, hyc, Bool.false_eq_true, if_false, hyat]
    rw [if_neg (fun hcond => by rw [hyw] at hcond; exact absurd hcond.1 (by simp))]

/-- Claim C3, witness for `extract_username_spec`: the handle `durov` is
recovered from `t.me/durov`, `@durov` and the bare token, and the invalid
bare token `ab!` yields no handle. -/
theorem extract_username_spec_witness :
    extract_username (tme ++ "durov".toList) = some "durov".toList ∧
    extract_username ('@' :: "durov".toList) = some "durov".toList ∧
    extract_username "durov".toList = some "durov".toList ∧
    extract_username "ab!".toList = none := by
  have h := extract_username_spec "durov".toList (by decide) (by decide)
  exact ⟨h.1, h.2.1, h.2.2.1 (by decide),
    h.2.2.2.2 "ab!".toList (by decide) (by decide) (by decide) (by decide)⟩
